import Mathlib

/-!
Shallow embedding of `upftrim.py` (class `UpfTrimmer`), a single-pass
tag-aware line scanner that trims tabulated data in UPF pseudopotential
files to a target mesh size.

Modelling conventions:
* Python strings are `String` (lists of `Char` internally); the few regexes
  the source uses (`<\w+`, `<`, `^<(\w+)`, `<\w`, `KEY="[0-9 ]+"`) are
  implemented directly as character-list scanners with Python's leftmost,
  greedy semantics.  `\w` is modelled over the ASCII range (UPF files are
  ASCII text).
* The mutable cursor `self.line_number` is threaded explicitly as a `Nat`.
  The source maintains the invariant `0 ≤ line_number ≤ len(lines) - 1` on
  non-empty buffers (the only mutation is `next_line`, which refuses to move
  past the final index), so `Ctx.getLine` totalises indexing with a default
  that is never consulted on reachable states of non-empty buffers.
* Loops that advance the cursor are structural recursions on the remaining
  distance `total - 1 - i`; where the Python loop would spin forever at the
  end of the buffer without making progress, the model returns the explicit
  `Outcome.diverge`.  The outer `process_file` loop, which can genuinely
  replay the same tag forever, takes a fuel parameter (`none` = fuel ran out).
* Python exceptions (AttributeError from `.group` on a failed match,
  ValueError from `int()`, TypeError / ZeroDivisionError from `//`, and the
  final `assert`) become constructors of `PyErr`.
* `datetime.now()` is the run timestamp, injected as the field `Ctx.now`.
-/

namespace UpfTrim

/-- Python exceptions that the trimmer can raise. -/
inductive PyErr where
  | attributeError
  | valueError
  | zeroDivisionError
  | typeError (msg : String)
  | assertionError
deriving DecidableEq, Repr

/-- Result of running a piece of the trimmer: normal return, an uncaught
Python exception, or a provably infinite loop. -/
inductive Outcome (α : Type) where
  | ok : α → Outcome α
  | err : PyErr → Outcome α
  | diverge : Outcome α
deriving DecidableEq, Repr

/-- `HEADERS`: the allow-list of trimmable tag names. -/
def HEADERS : List String :=
  ["PP_CHI", "PP_R", "PP_RAB", "PP_LOCAL", "PP_BETA", "PP_NLCC", "PP_RHOATOM"]

/-- `__version__` of the tool. -/
def version : String := "0.1.0"

/-- Regex `\w`: a word character (ASCII range). -/
def isWordChar (c : Char) : Bool := c.isAlphanum || c = '_'

/-- `re.match(r"<\w+", line)` viewed as a Boolean: the line starts with `<`
followed by at least one word character. -/
def matchTagOpen (s : String) : Bool :=
  match s.data with
  | c :: d :: _ => c = '<' && isWordChar d
  | _ => false

/-- `re.match(r"<", line)` viewed as a Boolean: the line starts with `<`. -/
def matchLt (s : String) : Bool :=
  match s.data with
  | c :: _ => c = '<'
  | _ => false

/-- Longest prefix of word characters. -/
def takeWord : List Char → List Char
  | c :: rest => if isWordChar c then c :: takeWord rest else []
  | [] => []

/-- `re.match(r'^<(\w+)', line).group(1)`: `none` models the `AttributeError`
raised when the match fails (`None.group`). -/
def tagName (s : String) : Option String :=
  match s.data with
  | c :: rest =>
      if c = '<' then
        match takeWord rest with
        | [] => none
        | w => some (String.mk w)
      else none
  | [] => none

/-- `re.search(r"<\w", line)` viewed as a Boolean: somewhere in the line a
`<` is immediately followed by a word character. -/
def hasTagAnywhere : List Char → Bool
  | [] => false
  | [_] => false
  | c :: d :: rest => (c = '<' && isWordChar d) || hasTagAnywhere (d :: rest)

/-- Python's `needle in haystack` substring test. -/
def hasSubstr (needle : List Char) : List Char → Bool
  | [] => needle.isEmpty
  | c :: rest => needle.isPrefixOf (c :: rest) || hasSubstr needle rest

/-- A character matched by the regex class `[0-9 ]`. -/
def runChar (c : Char) : Bool := c.isDigit || c = ' '

/-- Longest prefix of `[0-9 ]` characters, and the remainder. -/
def takeRun : List Char → List Char × List Char
  | c :: rest =>
      if runChar c then
        let p := takeRun rest
        (c :: p.1, p.2)
      else ([], c :: rest)
  | [] => ([], [])

/-- Match the regex `KEY="[0-9 ]+"` at the head of `cs`; on success returns
the captured `[0-9 ]+` run and the remainder after the closing quote.
(The character class excludes `"`, so the greedy run with backtracking
succeeds iff the maximal run is non-empty and followed by `"`.) -/
def matchEqQuote : List Char → Option (List Char × List Char)
  | '=' :: '"' :: rest2 =>
      let p := takeRun rest2
      if p.1 = [] then none
      else
        match p.2 with
        | '"' :: rest4 => some (p.1, rest4)
        | _ => none
  | _ => none

def matchKeyAt (key : List Char) (cs : List Char) : Option (List Char × List Char) :=
  if key.isPrefixOf cs then matchEqQuote (cs.drop key.length) else none

/-- `re.search(r'KEY="([0-9 ]+)"', line)`: leftmost captured run. -/
def searchKey (key : List Char) : List Char → Option (List Char)
  | [] => none
  | c :: rest =>
      match matchKeyAt key (c :: rest) with
      | some (run, _) => some run
      | none => searchKey key rest

/-- `re.sub(r'KEY="[0-9 ]+"', f'KEY="REPL"', line)`: replace every
non-overlapping leftmost match, continuing after each replaced span.
Structured with fuel (`= cs.length` at the top) so it computes by kernel
reduction; the scan consumes at least one character per step. -/
def subKeyAux (key repl : List Char) : Nat → List Char → List Char
  | 0, cs => cs
  | _ + 1, [] => []
  | fuel + 1, c :: rest =>
      match matchKeyAt key (c :: rest) with
      | some (_, after) =>
          key ++ ('=' :: '"' :: (repl ++ ('"' :: subKeyAux key repl fuel after)))
      | none => c :: subKeyAux key repl fuel rest

def subKey (key repl : List Char) (cs : List Char) : List Char :=
  subKeyAux key repl cs.length cs

/-- `str.strip()` restricted to spaces (the only whitespace `[0-9 ]` allows). -/
def stripSpaces (cs : List Char) : List Char :=
  ((cs.dropWhile (· = ' ')).reverse.dropWhile (· = ' ')).reverse

/-- Python's `int(s)` on an already-stripped string of characters drawn from
`[0-9 ]`: succeeds iff non-empty and all digits (`none` = `ValueError`). -/
def pyInt? (cs : List Char) : Option Nat :=
  if cs ≠ [] ∧ cs.all Char.isDigit then
    some (cs.foldl (fun a c => 10 * a + (c.toNat - 48)) 0)
  else none

/-- Decimal digits of `n`, as Python's `f"{n}"` renders a non-negative int.
Fueled so it computes by kernel reduction; `n + 1` units always suffice. -/
def natToDigitsAux : Nat → Nat → List Char
  | 0, _ => []
  | fuel + 1, n =>
      if n < 10 then [Char.ofNat (48 + n)]
      else natToDigitsAux fuel (n / 10) ++ [Char.ofNat (48 + n % 10)]

def natToDigits (n : Nat) : List Char := natToDigitsAux (n + 1) n

def natStr (n : Nat) : String := String.mk (natToDigits n)

/-- The input of one trimming run: the line buffer, the target mesh size, and
the timestamp `datetime.now()` reads (injected for determinism). -/
structure Ctx where
  lines : List String
  mesh : Nat
  now : String
deriving DecidableEq, Repr

def Ctx.total (ctx : Ctx) : Nat := ctx.lines.length

/-- `self.lines[i]`; the default is never consulted on reachable states of a
non-empty buffer (see the cursor invariant in the header comment). -/
def Ctx.getLine (ctx : Ctx) (i : Nat) : String := ctx.lines.getD i ""

/-- `self.next_line()`'s cursor effect: advance unless already at the final
line. -/
def nextL (ctx : Ctx) (i : Nat) : Nat :=
  if i = ctx.total - 1 then i else i + 1

def meshSizeKey : List Char := "mesh_size".data
def sizeKey : List Char := "size".data
def columnsKey : List Char := "columns".data

/-- The local function `replace_size(line)` of `process_tag`, acting on one
header line.  Returns the appended output line together with the updated
`current_size` / `current_columns` fields (unchanged when the corresponding
branch does not assign them).  Errors: a failed `re.search(...).group(1)` is
`attributeError`; a failed `int()` is `valueError`. -/
def replaceSize (mesh : Nat) (trim : Bool) (line : String) (sz cols : Option Nat) :
    Outcome (String × Option Nat × Option Nat) :=
  let cs := line.data
  let step1 : Outcome (List Char × Option Nat) :=
    if hasSubstr meshSizeKey cs then
      .ok (subKey meshSizeKey (' ' :: ' ' :: ' ' :: natToDigits mesh) cs, sz)
    else if hasSubstr sizeKey cs && trim then
      match searchKey sizeKey cs with
      | none => .err .attributeError
      | some run =>
          match pyInt? (stripSpaces run) with
          | none => .err .valueError
          | some v => .ok (subKey sizeKey (natToDigits mesh) cs, some v)
    else .ok (cs, sz)
  match step1 with
  | .err e => .err e
  | .diverge => .diverge
  | .ok (newLine, sz') =>
      if hasSubstr columnsKey cs && trim then
        match searchKey columnsKey cs with
        | none => .err .attributeError
        | some run =>
            match pyInt? (stripSpaces run) with
            | none => .err .valueError
            | some v => .ok (String.mk newLine, sz', some v)
      else .ok (String.mk newLine, sz', cols)

/-- The body of `goto_next_tag`, structural on the remaining distance to the
final line (`k = total - 1 - i` at the call site, so `k = 0` exactly when
`next_line()` would return `False`).  Returns the final cursor and the lines
the scan appended: nothing until a line starting with `<` sets `recording`,
everything from that line on, stopping (without appending) at a line that
starts with an opening marker `<\w`. -/
def gotoAux (ctx : Ctx) (recording : Bool) : Nat → Nat → Nat × List String
  | 0, i =>
      if matchTagOpen (ctx.getLine i) then (i, [])
      else (i, if recording || matchLt (ctx.getLine i) then [ctx.getLine i] else [])
  | k + 1, i =>
      if matchTagOpen (ctx.getLine i) then (i, [])
      else
        ((gotoAux ctx (recording || matchLt (ctx.getLine i)) k (i + 1)).1,
          (if recording || matchLt (ctx.getLine i) then [ctx.getLine i] else [])
            ++ (gotoAux ctx (recording || matchLt (ctx.getLine i)) k (i + 1)).2)

/-- `goto_next_tag`, entered with the cursor at `i`. -/
def gotoNextTag (ctx : Ctx) (i : Nat) : Nat × List String :=
  gotoAux ctx false (ctx.total - 1 - i) i

/-- The `for i in range(nlines)` loop of `trim_content`: append the current
line and advance, `n` times.  `next_line`'s return value is ignored by the
source, so at the final line the same line is appended repeatedly. -/
def trimRows (ctx : Ctx) : Nat → Nat → List String × Nat
  | 0, i => ([], i)
  | n + 1, i =>
      let line := ctx.getLine i
      let p := trimRows ctx n (nextL ctx i)
      (line :: p.1, p.2)

/-- `trim_content(nlines)`: emit `nlines` rows, then `goto_next_tag`. -/
def trimContent (ctx : Ctx) (nlines : Nat) (i : Nat) : Nat × List String :=
  ((gotoNextTag ctx (trimRows ctx nlines i).2).1,
    (trimRows ctx nlines i).1 ++ (gotoNextTag ctx (trimRows ctx nlines i).2).2)

/-- The pass-through loop of `process_tag` for non-trimmed tags
(`while True: append current; next_line(); if re.search(r"<\w", current):
return`), structural on the remaining distance (`k = total - 1 - i` at the
call site).  At the final line, if the re-checked line contains no `<\w` the
Python loop appends it forever: `diverge`. -/
def notTrimAux (ctx : Ctx) : Nat → Nat → Outcome (Nat × List String)
  | 0, i =>
      if hasTagAnywhere (ctx.getLine i).data then .ok (i, [ctx.getLine i]) else .diverge
  | k + 1, i =>
      if hasTagAnywhere (ctx.getLine (i + 1)).data then .ok (i + 1, [ctx.getLine i])
      else
        match notTrimAux ctx k (i + 1) with
        | .ok p => .ok (p.1, ctx.getLine i :: p.2)
        | .err e => .err e
        | .diverge => .diverge

/-- The multi-line-opener loop of `process_tag` (`while True: replace_size;
if '>' in current: next_line(); break; next_line()`), structural on the
remaining distance.  At the final line with no `>` the Python loop reprocesses
the same line forever: `diverge`. -/
def headerAux (ctx : Ctx) (trim : Bool) : Nat → Nat → Option Nat → Option Nat →
    Outcome (Nat × List String × Option Nat × Option Nat)
  | 0, i, sz, cols =>
      match replaceSize ctx.mesh trim (ctx.getLine i) sz cols with
      | .err e => .err e
      | .diverge => .diverge
      | .ok (em, sz', cols') =>
          if (ctx.getLine i).data.contains '>' then .ok (i, [em], sz', cols')
          else .diverge
  | k + 1, i, sz, cols =>
      match replaceSize ctx.mesh trim (ctx.getLine i) sz cols with
      | .err e => .err e
      | .diverge => .diverge
      | .ok (em, sz', cols') =>
          if (ctx.getLine i).data.contains '>' then .ok (i + 1, [em], sz', cols')
          else
            match headerAux ctx trim k (i + 1) sz' cols' with
            | .ok (j, out, s, c) => .ok (j, em :: out, s, c)
            | .err e => .err e
            | .diverge => .diverge

/-- The free-text metadata block appended after a one-line `<PP_INFO ...>`
opener (an f-string recording the mesh, the timestamp and the version). -/
def infoBlock (ctx : Ctx) : String :=
  "NOTE!!!!\nThis file is trimmed with a mesh size of " ++ natStr ctx.mesh ++
    " from the original version.\nTrimming performed at " ++ ctx.now ++
    " by trim_upf.py version " ++ version ++ "\n"

/-- The tail of `process_tag` after the opening marker has been consumed:
either the verbatim pass-through for non-trimmed tags, or (when a truthy
`current_size` was recorded) `nlines = mesh // columns` and `trim_content`;
`mesh // None` is a `TypeError`, `mesh // 0` a `ZeroDivisionError`.
A falsy (absent or zero) size returns `True` with the cursor unmoved. -/
def afterHeader (ctx : Ctx) (trim : Bool) (sz cols : Option Nat) (i : Nat)
    (out : List String) : Outcome (Option Bool × Nat × List String) :=
  if !trim then
    match notTrimAux ctx (ctx.total - 1 - i) i with
    | .ok (j, body) => .ok (none, j, out ++ body)
    | .err e => .err e
    | .diverge => .diverge
  else if sz.getD 0 ≠ 0 then
    match cols with
    | none => .err (.typeError "unsupported operand type(s) for //: 'int' and 'NoneType'")
    | some 0 => .err .zeroDivisionError
    | some c =>
        .ok (some true, (trimContent ctx (ctx.mesh / c) i).1,
          out ++ (trimContent ctx (ctx.mesh / c) i).2)
  else .ok (some true, i, out)

/-- `process_tag`: returns the Python return value (`some false` = `False`,
`none` = bare `return`, `some true` = `True`), the new cursor, and the lines
appended to `self.output_lines` by this call. -/
def processTag (ctx : Ctx) (i : Nat) : Outcome (Option Bool × Nat × List String) :=
  if ctx.getLine i = "" then .ok (some false, i, [])
  else
    match tagName (ctx.getLine i) with
    | none => .err .attributeError
    | some name =>
        if (ctx.getLine i).data.contains '>' then
          match replaceSize ctx.mesh (HEADERS.contains name) (ctx.getLine i) none none with
          | .err e => .err e
          | .diverge => .diverge
          | .ok (em, sz, cols) =>
              if matchTagOpen (ctx.getLine (nextL ctx i)) then
                .ok (none, nextL ctx i,
                  if name = "PP_INFO" then [em, infoBlock ctx] else [em])
              else
                afterHeader ctx (HEADERS.contains name) sz cols (nextL ctx i)
                  (if name = "PP_INFO" then [em, infoBlock ctx] else [em])
        else
          match headerAux ctx (HEADERS.contains name) (ctx.total - 1 - i) i none none with
          | .err e => .err e
          | .diverge => .diverge
          | .ok (i₁, out₁, sz, cols) =>
              afterHeader ctx (HEADERS.contains name) sz cols i₁ out₁

/-- The `while True` loop of `process_file`, with fuel (`none` = fuel ran
out; the loop is not terminating on all inputs).  Stops exactly when
`process_tag` returns `False`. -/
def processLoop (ctx : Ctx) : Nat → Nat → Option (Outcome (Nat × List String))
  | 0, _ => none
  | fuel + 1, i =>
      match processTag ctx i with
      | .err e => some (.err e)
      | .diverge => some .diverge
      | .ok (some false, j, out) => some (.ok (j, out))
      | .ok (_, j, out) =>
          match processLoop ctx fuel j with
          | none => none
          | some (.err e) => some (.err e)
          | some .diverge => some .diverge
          | some (.ok (j', out')) => some (.ok (j', out ++ out'))

/-- `process_file` (without the save step): run the loop from line 0, then
`assert self.is_end_of_file`.  On success the accumulated `output_lines`. -/
def processFile (ctx : Ctx) (fuel : Nat) : Option (Outcome (List String)) :=
  match processLoop ctx fuel 0 with
  | none => none
  | some (.err e) => some (.err e)
  | some .diverge => some .diverge
  | some (.ok (j, out)) =>
      if j = ctx.total - 1 then some (.ok out) else some (.err .assertionError)

/-- `save_output`: blank accumulator entries are not written to the file. -/
def saveOutput (out : List String) : List String := out.filter (· ≠ "")

/-- The header phase of `process_tag`, the two opener shapes in one derived
function mirroring `process_tag`'s branches: a one-line opener (`>` somewhere
in its line) goes through a single `replace_size` and one `next_line`; a
multi-line opener runs the `replace_size` loop until its `>` line.  Returns
the post-header cursor, the emitted header lines, and the recorded
`current_size` / `current_columns`. -/
def headerPhase (ctx : Ctx) (trim : Bool) (i : Nat) :
    Outcome (Nat × List String × Option Nat × Option Nat) :=
  if (ctx.getLine i).data.contains '>' then
    match replaceSize ctx.mesh trim (ctx.getLine i) none none with
    | .err e => .err e
    | .diverge => .diverge
    | .ok (em, sz, cols) => .ok (nextL ctx i, [em], sz, cols)
  else headerAux ctx trim (ctx.total - 1 - i) i none none

/-- Termination of the `process_file` loop on a given input: some fuel makes
the loop reach a real outcome (`diverge` reports an inner loop that spins
forever, so it does not count as termination). -/
def Terminates (ctx : Ctx) : Prop :=
  ∃ fuel r, processFile ctx fuel = some r ∧ r ≠ Outcome.diverge

/-! ### Derived emission helper and concrete inputs used by the claim theorems -/

/-- What `replace_size` appends when `trim` is false: the `mesh_size`
rewrite still happens, nothing else changes. -/
def replaceSizeEmitNT (mesh : Nat) (line : String) : String :=
  if hasSubstr meshSizeKey line.data then
    String.mk (subKey meshSizeKey (' ' :: ' ' :: ' ' :: natToDigits mesh) line.data)
  else line

/-- A minimal well-formed buffer with one trimmable tag (`size=4`,
`columns=2`, mesh 4, so both data rows are retained). -/
def ctxTrimBasic : Ctx :=
  ⟨["<PP_R size=\"4\" columns=\"2\">", "1 2", "3 4", "</PP_R>", ""], 4, ""⟩

/-- Buffer for exercising the discard-scan modes directly. -/
def ctxGotoW : Ctx := ⟨["<PP_R>", "x", "y", "</PP_R>", ""], 2, ""⟩

/-- A trimmable tag whose body ends before `retained_lines = 3` rows exist. -/
def ctxShortBody : Ctx := ⟨["<PP_R size=\"9\" columns=\"1\">", "7", ""], 3, ""⟩

/-- A buffer where the loop halts on an empty line that is not the final
line (a zero `size` skips the body, landing the cursor mid-file). -/
def ctxMidEmpty : Ctx := ⟨["<PP_R size=\"0\">", "", "x", ""], 5, ""⟩

/-- A single one-line tag at the final line: `process_tag` returns with the
cursor unmoved, so the `process_file` loop replays it forever. -/
def ctxReplay : Ctx := ⟨["<A>"], 600, ""⟩

/-- A standard well-formed scenario buffer (trimmed tag, then trailing
closing lines swallowed by the recording scan, final empty line). -/
def ctxScenario : Ctx :=
  ⟨["<PP_R size=\"2\" columns=\"1\">", "a", "b", "</PP_R>", ""], 2, "t"⟩

/-- A non-trimmable tag whose body line carries a textual `mesh_size`
attribute; the body line is copied verbatim by the pass-through scan. -/
def ctxMeshBody : Ctx :=
  ⟨["<B>", "mesh_size=\"100\"", "<PP_R size=\"2\" columns=\"1\">", "5", "6", "</PP_R>", ""],
    2, ""⟩

/-- A trimmable tag with a multi-line opener recording `size="0"`. -/
def ctxSizeZeroML : Ctx := ⟨["<PP_R size=\"0\"", "columns=\"4\">", "9 9", ""], 600, ""⟩

/-- A trimmable sized tag whose header is immediately followed by another
opening marker: the source's early return skips the trim path entirely. -/
def ctxAdjacent : Ctx :=
  ⟨["<PP_R size=\"2\" columns=\"2\">", "<PP_RAB size=\"2\" columns=\"2\">", "a b",
     "</PP_RAB>", ""], 2, ""⟩

/-- A trimmable tag with a multi-line opener, mesh 601 and columns 4
(scenario E: floor division gives 150 rows). -/
def ctxRowsML : Ctx := ⟨["<PP_R size=\"9\"", "columns=\"4\">", "r", ""], 601, ""⟩

/-- The message of the `TypeError` Python raises for `mesh // None`. -/
def divNoneMsg : String := "unsupported operand type(s) for //: 'int' and 'NoneType'"

/-- A trimmable tag declaring `size` but no `columns`. -/
def ctxNoCols : Ctx := ⟨["<PP_LOCAL size=\"600\">", "1.0", ""], 600, ""⟩

/-- A trimmable tag with a multi-line opener declaring `size` but no
`columns`. -/
def ctxNoColsML : Ctx := ⟨["<PP_LOCAL", "size=\"600\">", "1.0", ""], 600, ""⟩

/-- A non-trimmable tag with a multi-line opener and a verbatim body. -/
def ctxPlainML : Ctx := ⟨["<B", "a=\"1\">", "x", "<C>", ""], 5, ""⟩

/-- A `PP_INFO` opener whose closing `>` sits on the next line. -/
def ctxInfoMulti : Ctx :=
  ⟨["<PP_INFO", ">", "x", "<PP_R size=\"2\" columns=\"2\">", "1 2", "3 4", "</PP_R>", ""],
    2, "T"⟩

/-- A one-line `PP_INFO` opener. -/
def ctxInfoOne : Ctx :=
  ⟨["<PP_INFO>", "hello", "<PP_R size=\"2\" columns=\"2\">", "1 2", "3 4", "</PP_R>", ""],
    2, "TS"⟩

/-! ### Arithmetic and parsing lemmas -/

theorem digitChar_spec {m : Nat} (hm : m < 10) :
    (Char.ofNat (48 + m)).isDigit = true ∧ (Char.ofNat (48 + m)).toNat - 48 = m := by
  interval_cases m <;> exact ⟨by decide, by decide⟩

theorem natToDigitsAux_spec :
    ∀ fuel n, n < fuel →
      natToDigitsAux fuel n ≠ [] ∧ (natToDigitsAux fuel n).all Char.isDigit = true ∧
        (natToDigitsAux fuel n).foldl (fun a c => 10 * a + (c.toNat - 48)) 0 = n := by
  intro fuel
  induction fuel with
  | zero => intro n h; omega
  | succ f ih =>
      intro n h
      by_cases h10 : n < 10
      · refine ⟨by simp [natToDigitsAux, h10], ?_, ?_⟩
        · simp [natToDigitsAux, h10, (digitChar_spec h10).1]
        · simp [natToDigitsAux, h10, List.foldl, (digitChar_spec h10).2]
      · have hdiv : n / 10 < f := by
          have h1 : n / 10 < n := Nat.div_lt_self (by omega) (by norm_num)
          omega
        obtain ⟨hne, hall, hfold⟩ := ih (n / 10) hdiv
        have hm : n % 10 < 10 := Nat.mod_lt _ (by norm_num)
        refine ⟨by simp [natToDigitsAux, h10], ?_, ?_⟩
        · simp only [natToDigitsAux, if_neg h10, List.all_append, hall, Bool.true_and,
            List.all_cons, List.all_nil, Bool.and_true]
          exact (digitChar_spec hm).1
        · simp only [natToDigitsAux, if_neg h10, List.foldl_append, hfold, List.foldl,
            (digitChar_spec hm).2]
          omega

theorem natToDigits_ne_nil (n : Nat) : natToDigits n ≠ [] :=
  (natToDigitsAux_spec (n + 1) n (Nat.lt_succ_self n)).1

theorem natToDigits_all_digits (n : Nat) : (natToDigits n).all Char.isDigit = true :=
  (natToDigitsAux_spec (n + 1) n (Nat.lt_succ_self n)).2.1

theorem isDigit_ne_space {c : Char} (h : c.isDigit = true) : ¬(c = ' ') := by
  intro he; subst he; simp at h

theorem dropWhile_space_of_digits {l : List Char} (hall : l.all Char.isDigit = true) :
    List.dropWhile (· = ' ') l = l := by
  cases l with
  | nil => rfl
  | cons d tl =>
      have hd : d.isDigit = true := (List.all_eq_true.1 hall) d (by simp)
      simp [List.dropWhile_cons, isDigit_ne_space hd]

theorem stripSpaces_spaces_digits {ds : List Char} (_hne : ds ≠ [])
    (hall : ds.all Char.isDigit = true) :
    stripSpaces (' ' :: ' ' :: ' ' :: ds) = ds := by
  have h1 : List.dropWhile (· = ' ') (' ' :: ' ' :: ' ' :: ds) = ds := by
    simp only [List.dropWhile_cons, if_pos (by decide : ((' ' : Char) = ' ') = True)]
    simp only [decide_True, if_true]
    exact dropWhile_space_of_digits hall
  have h2 : List.dropWhile (· = ' ') ds.reverse = ds.reverse :=
    dropWhile_space_of_digits (by rw [List.all_reverse]; exact hall)
  unfold stripSpaces
  rw [h1, h2, List.reverse_reverse]

theorem pyInt?_natToDigits (n : Nat) : pyInt? (natToDigits n) = some n := by
  obtain ⟨hne, hall, hfold⟩ := natToDigitsAux_spec (n + 1) n (Nat.lt_succ_self n)
  unfold pyInt? natToDigits
  rw [if_pos ⟨hne, hall⟩, hfold]

theorem pyInt?_padded_mesh (mesh : Nat) :
    pyInt? (stripSpaces (' ' :: ' ' :: ' ' :: natToDigits mesh)) = some mesh := by
  rw [stripSpaces_spaces_digits (natToDigits_ne_nil mesh) (natToDigits_all_digits mesh)]
  exact pyInt?_natToDigits mesh

/-! ### Lemmas about the attribute regex machinery -/

theorem isPrefixOf_self_append (l t : List Char) : l.isPrefixOf (l ++ t) = true :=
  List.isPrefixOf_iff_prefix.2 (List.prefix_append l t)

theorem takeRun_run_quote {run : List Char} (hrun : run.all runChar = true) (post : List Char) :
    takeRun (run ++ '"' :: post) = (run, '"' :: post) := by
  induction run with
  | nil => simp [takeRun, runChar]
  | cons c cs ih =>
      have hc : runChar c = true := (List.all_eq_true.1 hrun) c (by simp)
      have hcs : cs.all runChar = true := by
        rw [List.all_eq_true]
        intro x hx; exact (List.all_eq_true.1 hrun) x (by simp [hx])
      simp [takeRun, hc, ih hcs]

theorem matchKeyAt_boundary (key : List Char) {run : List Char} (post : List Char)
    (hne : run ≠ []) (hrun : run.all runChar = true) :
    matchKeyAt key (key ++ ('=' :: '"' :: (run ++ ('"' :: post)))) = some (run, post) := by
  unfold matchKeyAt
  rw [if_pos (by rw [isPrefixOf_self_append]), List.drop_left]
  simp only [matchEqQuote]
  rw [takeRun_run_quote hrun]
  simp [hne]

theorem matchKeyAt_none_of_unmatched {key cs : List Char}
    (h : key.isPrefixOf cs = false) : matchKeyAt key cs = none := by
  unfold matchKeyAt
  rw [h]
  simp

theorem matchKeyAt_isPrefixOf {key cs : List Char} {p : List Char × List Char}
    (h : matchKeyAt key cs = some p) : key.isPrefixOf cs = true := by
  by_cases hp : key.isPrefixOf cs = true
  · exact hp
  · rw [matchKeyAt_none_of_unmatched (Bool.eq_false_iff.2 hp)] at h
    exact absurd h (by simp)

theorem hasSubstr_mid (key : List Char) : ∀ pre rest : List Char,
    hasSubstr key (pre ++ (key ++ rest)) = true := by
  intro pre
  induction pre with
  | nil =>
      intro rest
      rw [List.nil_append]
      cases hc : key ++ rest with
      | nil =>
          have hk : key = [] := by
            cases key with
            | nil => rfl
            | cons c cs => simp at hc
          rw [hk]
          rfl
      | cons c l =>
          show (key.isPrefixOf (c :: l) || hasSubstr key l) = true
          rw [← hc, isPrefixOf_self_append]
          rfl
  | cons c p ih =>
      intro rest
      rw [List.cons_append]
      show (key.isPrefixOf (c :: (p ++ (key ++ rest))) || hasSubstr key (p ++ (key ++ rest))) = true
      rw [ih rest, Bool.or_true]

theorem subKeyAux_cons_none {key repl : List Char} {c : Char} {rest : List Char} (f : Nat)
    (h : matchKeyAt key (c :: rest) = none) :
    subKeyAux key repl (f + 1) (c :: rest) = c :: subKeyAux key repl f rest := by
  simp only [subKeyAux]
  rw [h]

theorem subKeyAux_cons_some {key repl : List Char} {c : Char} {rest run after : List Char} (f : Nat)
    (h : matchKeyAt key (c :: rest) = some (run, after)) :
    subKeyAux key repl (f + 1) (c :: rest)
      = key ++ ('=' :: '"' :: (repl ++ ('"' :: subKeyAux key repl f after))) := by
  simp only [subKeyAux]
  rw [h]

theorem subKeyAux_copy (key repl : List Char) :
    ∀ pre cs fuel, (pre ++ cs).length ≤ fuel →
      (∀ j, j < pre.length → key.isPrefixOf ((pre ++ cs).drop j) = false) →
      subKeyAux key repl fuel (pre ++ cs) = pre ++ subKeyAux key repl (fuel - pre.length) cs := by
  intro pre
  induction pre with
  | nil => intro cs fuel h1 _; simp
  | cons c p ih =>
      intro cs fuel h1 h2
      cases fuel with
      | zero => simp at h1
      | succ f =>
          have h0 : key.isPrefixOf (c :: (p ++ cs)) = false := by
            have := h2 0 (by simp)
            simpa using this
          rw [List.cons_append, subKeyAux_cons_none f (matchKeyAt_none_of_unmatched h0)]
          have hlen : (p ++ cs).length ≤ f := by
            simp only [List.cons_append, List.length_cons] at h1; omega
          have hsh : ∀ j, j < p.length → key.isPrefixOf ((p ++ cs).drop j) = false := by
            intro j hj
            have := h2 (j + 1) (by simp only [List.length_cons]; omega)
            simpa using this
          rw [ih cs f hlen hsh]
          have hf : f + 1 - (c :: p).length = f - p.length := by
            simp only [List.length_cons]; omega
          rw [hf, List.cons_append]

theorem subKeyAux_id (key repl : List Char) :
    ∀ cs fuel, (∀ j, key.isPrefixOf (cs.drop j) = false) →
      subKeyAux key repl fuel cs = cs := by
  intro cs
  induction cs with
  | nil => intro fuel _; cases fuel <;> rfl
  | cons c rest ih =>
      intro fuel h
      cases fuel with
      | zero => rfl
      | succ f =>
          have h0 : key.isPrefixOf (c :: rest) = false := by simpa using h 0
          rw [subKeyAux_cons_none f (matchKeyAt_none_of_unmatched h0)]
          rw [ih f]
          intro j
          have := h (j + 1)
          simpa using this

/-- Rewriting a string that contains exactly one `KEY="RUN"` attribute
occurrence (`huniq` pins the unique position of the substring `KEY`):
the run is replaced and everything else is untouched. -/
theorem subKey_single (key repl run pre post : List Char)
    (hkey : key ≠ []) (hne : run ≠ []) (hrun : run.all runChar = true)
    (huniq : ∀ j, key.isPrefixOf
        ((pre ++ (key ++ ('=' :: '"' :: (run ++ ('"' :: post))))).drop j) = true →
        j = pre.length) :
    subKey key repl (pre ++ (key ++ ('=' :: '"' :: (run ++ ('"' :: post)))))
      = pre ++ (key ++ ('=' :: '"' :: (repl ++ ('"' :: post)))) := by
  have hpre : ∀ j, j < pre.length →
      key.isPrefixOf ((pre ++ (key ++ ('=' :: '"' :: (run ++ ('"' :: post))))).drop j) = false := by
    intro j hj
    cases hb : key.isPrefixOf ((pre ++ (key ++ ('=' :: '"' :: (run ++ ('"' :: post))))).drop j) with
    | false => rfl
    | true => exact absurd (huniq j hb) (by omega)
  have hpost : ∀ m, key.isPrefixOf (post.drop m) = false := by
    intro m
    cases hb : key.isPrefixOf (post.drop m) with
    | false => rfl
    | true =>
        exfalso
        have hA : pre ++ (key ++ ('=' :: '"' :: (run ++ ('"' :: post))))
            = (pre ++ (key ++ ('=' :: '"' :: (run ++ ['"'])))) ++ post := by
          simp
        have hdrop : (pre ++ (key ++ ('=' :: '"' :: (run ++ ('"' :: post))))).drop
            ((pre ++ (key ++ ('=' :: '"' :: (run ++ ['"'])))).length + m) = post.drop m := by
          rw [hA, List.drop_append]
        have hj := huniq _ (by rw [hdrop]; exact hb)
        have hk1 : 1 ≤ key.length := by
          cases key with
          | nil => exact absurd rfl hkey
          | cons a b => simp
        simp only [List.length_append, List.length_cons] at hj
        omega
  unfold subKey
  rw [subKeyAux_copy key repl pre _ _ (le_of_eq rfl) hpre]
  have hL : (pre ++ (key ++ ('=' :: '"' :: (run ++ ('"' :: post))))).length - pre.length
      = (key ++ ('=' :: '"' :: (run ++ ('"' :: post)))).length := by
    simp
  rw [hL]
  cases key with
  | nil => exact absurd rfl hkey
  | cons k ktl =>
      have hcons : (k :: ktl) ++ ('=' :: '"' :: (run ++ ('"' :: post)))
          = k :: (ktl ++ ('=' :: '"' :: (run ++ ('"' :: post)))) := List.cons_append ..
      have hlen : ((k :: ktl) ++ ('=' :: '"' :: (run ++ ('"' :: post)))).length
          = (ktl ++ ('=' :: '"' :: (run ++ ('"' :: post)))).length + 1 := by
        rw [hcons]; rfl
      rw [hlen, hcons]
      rw [subKeyAux_cons_some _ (by rw [← hcons]; exact matchKeyAt_boundary (k :: ktl) post hne hrun)]
      rw [subKeyAux_id _ _ post _ hpost, List.cons_append]

/-! ### Lemmas about `replace_size` -/

theorem mk_data (s : String) : String.mk s.data = s := rfl

theorem replaceSize_notrim (mesh : Nat) (line : String) (sz cols : Option Nat) :
    replaceSize mesh false line sz cols = .ok (replaceSizeEmitNT mesh line, sz, cols) := by
  unfold replaceSize replaceSizeEmitNT
  by_cases h : hasSubstr meshSizeKey line.data = true
  · simp [h]
  · simp [h, mk_data]

/-! ### Lemmas about the scanning loops -/

theorem trimRows_length (ctx : Ctx) : ∀ n i, (trimRows ctx n i).1.length = n := by
  intro n
  induction n with
  | zero => intro i; rfl
  | succ m ih => intro i; simp [trimRows, ih]

theorem trimRows_clamp (ctx : Ctx) :
    ∀ n i, i ≤ ctx.total - 1 →
      (trimRows ctx n i).1
        = (List.range n).map (fun k => ctx.getLine (min (i + k) (ctx.total - 1))) := by
  intro n
  induction n with
  | zero => intro i _; rfl
  | succ m ih =>
      intro i hi
      have hstep : (trimRows ctx (m + 1) i).1 = ctx.getLine i :: (trimRows ctx m (nextL ctx i)).1 := rfl
      rw [hstep, List.range_succ_eq_map, List.map_cons, List.map_map]
      have hmin : min (i + 0) (ctx.total - 1) = i := by omega
      rw [hmin]
      by_cases hend : i = ctx.total - 1
      · have hnext : nextL ctx i = i := by simp [nextL, hend]
        rw [hnext, ih i hi]
        congr 1
        apply List.map_congr_left
        intro k _
        simp only [Function.comp_apply]
        congr 1
        omega
      · have hnext : nextL ctx i = i + 1 := by simp [nextL, hend]
        rw [hnext, ih (i + 1) (by omega)]
        congr 1
        apply List.map_congr_left
        intro k _
        simp only [Function.comp_apply]
        congr 2
        omega

/-- The pass-through loop emits exactly the block of consecutive input lines
it scanned, verbatim and in order: `out` is the lines `i, i+1, ...` and the
final cursor is at (or, when the loop ended by re-checking the final line,
on) the line after the emitted block. -/
theorem notTrimAux_spec (ctx : Ctx) :
    ∀ k i j out, notTrimAux ctx k i = .ok (j, out) →
      out = (List.range' i out.length).map ctx.getLine ∧ out ≠ [] ∧
        (j = i + out.length ∨ j + 1 = i + out.length) := by
  intro k
  induction k with
  | zero =>
      intro i j out h
      simp only [notTrimAux] at h
      by_cases hb : hasTagAnywhere (ctx.getLine i).data = true
      · rw [if_pos hb] at h
        obtain ⟨h1, h2⟩ : i = j ∧ [ctx.getLine i] = out := by simpa using h
        subst h1; subst h2
        exact ⟨by simp [List.range'], by simp, Or.inr (by simp)⟩
      · rw [if_neg hb] at h
        exact absurd h (by simp)
  | succ m ih =>
      intro i j out h
      simp only [notTrimAux] at h
      by_cases hb : hasTagAnywhere (ctx.getLine (i + 1)).data = true
      · rw [if_pos hb] at h
        obtain ⟨h1, h2⟩ : i + 1 = j ∧ [ctx.getLine i] = out := by simpa using h
        subst h1; subst h2
        exact ⟨by simp [List.range'], by simp, Or.inl (by simp)⟩
      · rw [if_neg hb] at h
        cases hrec : notTrimAux ctx m (i + 1) with
        | ok p =>
            rw [hrec] at h
            obtain ⟨j', out'⟩ := p
            obtain ⟨hmap, hne, hcur⟩ := ih (i + 1) j' out' hrec
            obtain ⟨h1, h2⟩ : j' = j ∧ ctx.getLine i :: out' = out := by simpa using h
            subst h1; subst h2
            refine ⟨?_, by simp, ?_⟩
            · rw [show (ctx.getLine i :: out').length = out'.length + 1 from rfl,
                List.range'_succ, List.map_cons, ← hmap]
            · rcases hcur with hc | hc
              · exact Or.inl (by simp only [List.length_cons]; omega)
              · exact Or.inr (by simp only [List.length_cons]; omega)
        | err e => rw [hrec] at h; exact absurd h (by simp)
        | diverge => rw [hrec] at h; exact absurd h (by simp)

theorem matchTagOpen_matchLt {s : String} (h : matchTagOpen s = true) : matchLt s = true := by
  unfold matchTagOpen at h
  unfold matchLt
  cases hd : s.data with
  | nil => rw [hd] at h; exact absurd h (by simp)
  | cons c rest =>
      rw [hd] at h
      cases rest with
      | nil => exact absurd h (by simp)
      | cons d r2 =>
          simp only [Bool.and_eq_true] at h
          simpa using h.1

/-- Mode analysis of one step of the discard scan `goto_next_tag`:
with recording off, a line with no leading `<` is skipped without output. -/
theorem gotoAux_skip (ctx : Ctx) (k i : Nat) (h : matchLt (ctx.getLine i) = false) :
    gotoAux ctx false (k + 1) i = gotoAux ctx false k (i + 1) := by
  have hopen : matchTagOpen (ctx.getLine i) = false := by
    cases hb : matchTagOpen (ctx.getLine i) with
    | false => rfl
    | true => rw [matchTagOpen_matchLt hb] at h; exact absurd h (by simp)
  simp [gotoAux, hopen, h]

/-- A line that starts with an opening marker stops the discard scan at that
line, emitting nothing. -/
theorem gotoAux_stop (ctx : Ctx) (rec' : Bool) (k i : Nat)
    (h : matchTagOpen (ctx.getLine i) = true) :
    gotoAux ctx rec' k i = (i, []) := by
  cases k <;> simp [gotoAux, h]

/-- A line that starts with `<` but is not an opening marker (e.g. a bare
closing tag) turns recording on and is emitted as the next output line. -/
theorem gotoAux_emit (ctx : Ctx) (k i : Nat) (hlt : matchLt (ctx.getLine i) = true)
    (hopen : matchTagOpen (ctx.getLine i) = false) :
    ∃ j rest, gotoAux ctx false k i = (j, ctx.getLine i :: rest) := by
  cases k with
  | zero => exact ⟨i, [], by simp [gotoAux, hopen, hlt]⟩
  | succ m =>
      exact ⟨(gotoAux ctx true m (i + 1)).1, (gotoAux ctx true m (i + 1)).2,
        by simp [gotoAux, hopen, hlt]⟩

/-! ### Concrete inputs used by the claim theorems -/

/-! ### Claim C1 -/

/-- C1 counterexample: on `ctxTrimBasic` the run succeeds and the bare
closing-tag line `</PP_R>`, reached by the discard scan after the retained
rows, IS re-emitted to the output — refuting the claim that a line matching
`<` but not `<\w` is skipped and never re-emitted. -/
theorem discard_scan_reemits_closing_tag_cex :
    processFile ctxTrimBasic 8
      = some (.ok ["<PP_R size=\"4\" columns=\"2\">", "1 2", "3 4", "</PP_R>", ""])
    ∧ "</PP_R>" ∈ ["<PP_R size=\"4\" columns=\"2\">", "1 2", "3 4", "</PP_R>", ""] :=
  ⟨by decide, by decide⟩

/-- C1 (amended): the discard scan advances without copying only while lines
do not begin with `<`; the first line beginning with `<` that is not an
opening marker (e.g. a bare closing-tag line) switches the recording flag on
and is re-emitted to the output (as is everything after it), and a line
beginning with an opening marker `<NAME` stops the scan without being
emitted. -/
theorem discard_scan_modes (ctx : Ctx) (k i : Nat) :
    (matchLt (ctx.getLine i) = false →
        gotoAux ctx false (k + 1) i = gotoAux ctx false k (i + 1))
    ∧ (matchTagOpen (ctx.getLine i) = true → gotoAux ctx false k i = (i, []))
    ∧ (matchLt (ctx.getLine i) = true → matchTagOpen (ctx.getLine i) = false →
        ∃ j rest, gotoAux ctx false k i = (j, ctx.getLine i :: rest)) :=
  ⟨gotoAux_skip ctx k i, gotoAux_stop ctx false k i, gotoAux_emit ctx k i⟩

theorem discard_scan_modes_witness :
    (gotoAux ctxGotoW false 2 1 = gotoAux ctxGotoW false 1 2)
    ∧ (gotoAux ctxGotoW false 3 0 = (0, []))
    ∧ (∃ j rest, gotoAux ctxGotoW false 1 3 = (j, ctxGotoW.getLine 3 :: rest)) :=
  ⟨(discard_scan_modes ctxGotoW 1 1).1 (by decide),
   (discard_scan_modes ctxGotoW 3 0).2.1 (by decide),
   (discard_scan_modes ctxGotoW 1 3).2.2 (by decide) (by decide)⟩

/-! ### Claim C5 -/

/-- C5 counterexample: with `retained_lines = 3` but only one data row in
the buffer, the run does NOT fail: it completes with `.ok`, emitting the
final line again and again (the written file holds 2 non-blank lines: the
header and a single data row). -/
theorem premature_eof_silent_cex :
    processFile ctxShortBody 8 = some (.ok ["<PP_R size=\"3\" columns=\"1\">", "7", "", ""])
    ∧ ctxShortBody.mesh / 1 = 3
    ∧ (saveOutput ["<PP_R size=\"3\" columns=\"1\">", "7", "", ""]).length = 2 :=
  ⟨by decide, by decide, by decide⟩

/-- C5 (amended): when the cursor is exhausted during `trim_content`, the
loop silently clamps at the final line and emits it repeatedly — the row
loop always returns exactly `n` lines and never signals an error. -/
theorem trim_rows_eof_clamp (ctx : Ctx) (n i : Nat) (h : i ≤ ctx.total - 1) :
    (trimRows ctx n i).1
        = (List.range n).map (fun k => ctx.getLine (min (i + k) (ctx.total - 1)))
    ∧ (trimRows ctx n i).1.length = n :=
  ⟨trimRows_clamp ctx n i h, trimRows_length ctx n i⟩

theorem trim_rows_eof_clamp_witness :
    (trimRows ctxShortBody 3 1).1
        = (List.range 3).map (fun k => ctxShortBody.getLine (min (1 + k) (ctxShortBody.total - 1)))
    ∧ (trimRows ctxShortBody 3 1).1.length = 3 :=
  trim_rows_eof_clamp ctxShortBody 3 1 (by decide)

/-! ### Claim C6 -/

/-- C6: after the processing loop stops, the `assert self.is_end_of_file`
check succeeds exactly when the cursor is at the final line; a loop that
halted anywhere else makes the run fail with `AssertionError` instead of
returning the accumulated output. -/
theorem post_scan_assert (ctx : Ctx) (fuel j : Nat) (out : List String)
    (h : processLoop ctx fuel 0 = some (.ok (j, out))) :
    (j = ctx.total - 1 → processFile ctx fuel = some (.ok out))
    ∧ (j ≠ ctx.total - 1 → processFile ctx fuel = some (.err .assertionError)) := by
  constructor
  · intro hj; unfold processFile; rw [h]; simp [hj]
  · intro hj; unfold processFile; rw [h]; simp [hj]

theorem post_scan_assert_witness :
    processFile ctxMidEmpty 5 = some (.err .assertionError) :=
  (post_scan_assert ctxMidEmpty 5 1 ["<PP_R size=\"5\">"] (by decide)).2 (by decide)

/-! ### Claim C7 -/

theorem processTag_replay : processTag ctxReplay 0 = .ok (none, 0, ["<A>"]) := by decide

theorem processLoop_replay_none : ∀ fuel, processLoop ctxReplay fuel 0 = none := by
  intro fuel
  induction fuel with
  | zero => rfl
  | succ f ih => simp only [processLoop, processTag_replay, ih]

/-- C7 counterexample: the processing loop does NOT terminate on every input
buffer.  On `ctxReplay` (a single one-line tag) `process_tag` returns with
the cursor unmoved and the loop replays the same tag forever: no fuel
completes it. -/
theorem process_loop_nonterminating_cex : ¬ Terminates ctxReplay := by
  rintro ⟨fuel, r, h, -⟩
  rw [show processFile ctxReplay fuel = none by
    unfold processFile; rw [processLoop_replay_none fuel]] at h
  exact absurd h (by simp)

/-- C7 (amended): termination is not universal; an empty current line is
the stop signal of the loop (`process_tag` returns `False` there without
moving or emitting), and a standard scenario buffer, whose scan reaches the
final empty line, does terminate. -/
theorem process_loop_terminates_scenario :
    Terminates ctxScenario
    ∧ (∀ ctx : Ctx, ∀ i, ctx.getLine i = "" → processTag ctx i = .ok (some false, i, [])) := by
  constructor
  · exact ⟨6, .ok ["<PP_R size=\"2\" columns=\"1\">", "a", "b", "</PP_R>", ""],
      by decide, by decide⟩
  · intro ctx i h
    simp [processTag, h]

theorem process_loop_terminates_scenario_witness :
    processTag ctxScenario 4 = .ok (some false, 4, []) :=
  process_loop_terminates_scenario.2 ctxScenario 4 (by decide)

/-! ### Claim C3 -/

/-- C3 counterexample: the input contains the attribute text
`mesh_size="100"` (numeric value) on a body line; the run succeeds with
target mesh 2 and that occurrence survives in the output unrewritten —
refuting "every occurrence of that attribute in the output is rewritten". -/
theorem mesh_size_body_verbatim_cex :
    processFile ctxMeshBody 9
      = some (.ok ["<B>", "mesh_size=\"100\"", "<PP_R size=\"2\" columns=\"1\">",
          "5", "6", "</PP_R>", ""])
    ∧ "mesh_size=\"100\"" ∈ ["<B>", "mesh_size=\"100\"", "<PP_R size=\"2\" columns=\"1\">",
          "5", "6", "</PP_R>", ""]
    ∧ ctxMeshBody.mesh = 2 :=
  ⟨by decide, by decide, by decide⟩

/-- C3 (amended): on tag-header lines (the lines `replace_size` scans), the
`mesh_size` attribute is rewritten to the target mesh size regardless of the
trim flag — the theorem quantifies over `trim` and the output does not
depend on it.  Stated for a header line carrying the attribute pattern at a
unique position (`huniq`), the shape UPF headers have; occurrences on
non-header lines are NOT rewritten (see the counterexample). -/
theorem mesh_size_header_rewrite (mesh : Nat) (trim : Bool) (sz cols : Option Nat)
    (pre run post : List Char)
    (hne : run ≠ []) (hrun : run.all runChar = true)
    (hcols : hasSubstr columnsKey
        (pre ++ (meshSizeKey ++ ('=' :: '"' :: (run ++ ('"' :: post))))) = false)
    (huniq : ∀ j < (pre ++ (meshSizeKey ++ ('=' :: '"' :: (run ++ ('"' :: post))))).length,
        meshSizeKey.isPrefixOf
            ((pre ++ (meshSizeKey ++ ('=' :: '"' :: (run ++ ('"' :: post))))).drop j) = true →
          j = pre.length) :
    replaceSize mesh trim
        (String.mk (pre ++ (meshSizeKey ++ ('=' :: '"' :: (run ++ ('"' :: post)))))) sz cols
      = .ok (String.mk (pre ++ (meshSizeKey ++
          ('=' :: '"' :: ((' ' :: ' ' :: ' ' :: natToDigits mesh) ++ ('"' :: post))))), sz, cols)
    ∧ pyInt? (stripSpaces (' ' :: ' ' :: ' ' :: natToDigits mesh)) = some mesh := by
  refine ⟨?_, pyInt?_padded_mesh mesh⟩
  have hU : ∀ j, meshSizeKey.isPrefixOf
      ((pre ++ (meshSizeKey ++ ('=' :: '"' :: (run ++ ('"' :: post))))).drop j) = true →
      j = pre.length := by
    intro j hj
    by_cases hlt : j < (pre ++ (meshSizeKey ++ ('=' :: '"' :: (run ++ ('"' :: post))))).length
    · exact huniq j hlt hj
    · exfalso
      rw [List.drop_eq_nil_of_le (by omega)] at hj
      exact absurd hj (by decide)
  have hsub := subKey_single meshSizeKey (' ' :: ' ' :: ' ' :: natToDigits mesh) run pre post
    (by decide) hne hrun hU
  have hms : hasSubstr meshSizeKey
      (pre ++ (meshSizeKey ++ ('=' :: '"' :: (run ++ ('"' :: post))))) = true :=
    hasSubstr_mid meshSizeKey pre _
  unfold replaceSize
  simp only [hms, if_true, hcols, Bool.false_and, if_neg (by simp : ¬(false = true))]
  rw [hsub]

theorem mesh_size_header_rewrite_witness :
    replaceSize 600 false
        (String.mk ("<PP_MESH ".data ++ (meshSizeKey ++
          ('=' :: '"' :: ("1000".data ++ ('"' :: " dx=\"0.01\">".data)))))) none none
      = .ok (String.mk ("<PP_MESH ".data ++ (meshSizeKey ++
          ('=' :: '"' :: ((' ' :: ' ' :: ' ' :: natToDigits 600) ++
            ('"' :: " dx=\"0.01\">".data))))), none, none)
    ∧ pyInt? (stripSpaces (' ' :: ' ' :: ' ' :: natToDigits 600)) = some 600 :=
  mesh_size_header_rewrite 600 false none none "<PP_MESH ".data "1000".data " dx=\"0.01\">".data
    (by decide) (by decide) (by decide) (by decide)

/-! ### Claim C10 -/

theorem tagName_empty : tagName "" = none := rfl

theorem contains_HEADERS_ne_ppinfo {name : String} (h : HEADERS.contains name = true) :
    ¬(name = "PP_INFO") := by
  intro he
  subst he
  exact absurd h (by decide)

/-- C10: a trimmable tag — one-line or multi-line opener alike — whose
recorded `size` is `0` is treated exactly like one with no size at all:
only the header lines are emitted, no body line is copied, the cursor is
left on the line following the tag header, and control returns without
entering the trim path. -/
theorem size_zero_skips_trim (ctx : Ctx) (i i₁ : Nat) (name : String)
    (out₁ : List String) (cols : Option Nat)
    (hname : tagName (ctx.getLine i) = some name)
    (hmem : HEADERS.contains name = true)
    (hhdr : headerPhase ctx true i = .ok (i₁, out₁, some 0, cols)) :
    ∃ r, processTag ctx i = .ok (r, i₁, out₁) := by
  have hne : ctx.getLine i ≠ "" := by
    intro he
    rw [he, tagName_empty] at hname
    exact absurd hname (by simp)
  have hpi : ¬(name = "PP_INFO") := contains_HEADERS_ne_ppinfo hmem
  unfold headerPhase at hhdr
  by_cases hgt : (ctx.getLine i).data.contains '>' = true
  · rw [if_pos hgt] at hhdr
    cases hrs : replaceSize ctx.mesh true (ctx.getLine i) none none with
    | ok t =>
        obtain ⟨em, szr, colsr⟩ := t
        rw [hrs] at hhdr
        obtain ⟨h1, h2, h3, h4⟩ :
            nextL ctx i = i₁ ∧ [em] = out₁ ∧ szr = some 0 ∧ colsr = cols := by
          simpa using hhdr
        subst h1; subst h2; subst h3; subst h4
        by_cases hop : matchTagOpen (ctx.getLine (nextL ctx i)) = true
        · exact ⟨none, by
            simp only [processTag, if_neg hne, hname, hmem, hgt, if_true, hrs, hop,
              if_neg hpi]⟩
        · refine ⟨some true, ?_⟩
          simp only [processTag, if_neg hne, hname, hmem, hgt, if_true, hrs,
            if_neg hpi, if_neg hop]
          unfold afterHeader
          simp
    | err e => rw [hrs] at hhdr; exact absurd hhdr (by simp)
    | diverge => rw [hrs] at hhdr; exact absurd hhdr (by simp)
  · rw [if_neg hgt] at hhdr
    refine ⟨some true, ?_⟩
    simp only [processTag, if_neg hne, hname, hmem, if_neg hgt, hhdr]
    unfold afterHeader
    simp

theorem size_zero_skips_trim_witness :
    ∃ r, processTag ctxSizeZeroML 0
      = .ok (r, 2, ["<PP_R size=\"600\"", "columns=\"4\">"]) :=
  size_zero_skips_trim ctxSizeZeroML 0 2 "PP_R" ["<PP_R size=\"600\"", "columns=\"4\">"]
    (some 4) (by decide) (by decide) (by decide)

/-! ### Claim C2 -/

/-- C2 counterexample: `PP_R` is allow-listed with positive declared size 2
and positive columns 2, so the claim demands `2 / 2 = 1` retained data row —
but the header is immediately followed by another opener, `process_tag`
returns early, and zero body lines are emitted for this tag. -/
theorem rowcount_adjacent_opener_cex :
    processTag ctxAdjacent 0 = .ok (none, 1, ["<PP_R size=\"2\" columns=\"2\">"])
    ∧ ctxAdjacent.mesh / 2 = 1 :=
  ⟨by decide, by decide⟩

/-- C2 (amended): when a trimmable tag — one-line or multi-line opener
alike — records a positive size and positive columns, the trim path emits
exactly `mesh / columns` data rows right after the emitted header lines;
rows, not values, are the unit (`601 / 4 = 150`).  The one exception is the
early-return case the counterexample exhibits: a one-line header whose next
line is already a tag opener is skipped with zero data rows. -/
theorem trim_rowcount_law (ctx : Ctx) (i i₁ : Nat) (name : String)
    (out₁ : List String) (s c : Nat)
    (hname : tagName (ctx.getLine i) = some name)
    (hmem : HEADERS.contains name = true)
    (hhdr : headerPhase ctx true i = .ok (i₁, out₁, some s, some c))
    (hs : s ≠ 0) (hc : c ≠ 0)
    (hnext : ¬((ctx.getLine i).data.contains '>' = true
        ∧ matchTagOpen (ctx.getLine i₁) = true)) :
    ∃ j tail, processTag ctx i
        = .ok (some true, j, out₁ ++ ((trimRows ctx (ctx.mesh / c) i₁).1 ++ tail))
      ∧ (trimRows ctx (ctx.mesh / c) i₁).1.length = ctx.mesh / c := by
  have hne : ctx.getLine i ≠ "" := by
    intro he
    rw [he, tagName_empty] at hname
    exact absurd hname (by simp)
  have hpi : ¬(name = "PP_INFO") := contains_HEADERS_ne_ppinfo hmem
  refine ⟨(trimContent ctx (ctx.mesh / c) i₁).1,
    (gotoNextTag ctx (trimRows ctx (ctx.mesh / c) i₁).2).2, ?_,
    trimRows_length ctx _ _⟩
  unfold headerPhase at hhdr
  by_cases hgt : (ctx.getLine i).data.contains '>' = true
  · rw [if_pos hgt] at hhdr
    cases hrs : replaceSize ctx.mesh true (ctx.getLine i) none none with
    | ok t =>
        obtain ⟨em, szr, colsr⟩ := t
        rw [hrs] at hhdr
        obtain ⟨h1, h2, h3, h4⟩ :
            nextL ctx i = i₁ ∧ [em] = out₁ ∧ szr = some s ∧ colsr = some c := by
          simpa using hhdr
        subst h1; subst h2; subst h3; subst h4
        have hop : matchTagOpen (ctx.getLine (nextL ctx i)) = false := by
          cases hb : matchTagOpen (ctx.getLine (nextL ctx i)) with
          | false => rfl
          | true => exact absurd ⟨hgt, hb⟩ hnext
        simp only [processTag, if_neg hne, hname, hmem, hgt, if_true, hrs,
          if_neg hpi,
          if_neg (by simp [hop] : ¬(matchTagOpen (ctx.getLine (nextL ctx i)) = true))]
        unfold afterHeader
        cases c with
        | zero => exact absurd rfl hc
        | succ c' =>
            simp only [Bool.not_true, Option.getD_some,
              if_neg (by simp : ¬(false = true)), if_pos hs]
            unfold trimContent
            simp [List.cons_append]
    | err e => rw [hrs] at hhdr; exact absurd hhdr (by simp)
    | diverge => rw [hrs] at hhdr; exact absurd hhdr (by simp)
  · rw [if_neg hgt] at hhdr
    simp only [processTag, if_neg hne, hname, hmem, if_neg hgt, hhdr]
    unfold afterHeader
    cases c with
    | zero => exact absurd rfl hc
    | succ c' =>
        simp only [Bool.not_true, Option.getD_some,
          if_neg (by simp : ¬(false = true)), if_pos hs]
        unfold trimContent
        simp

theorem trim_rowcount_law_witness :
    ∃ j tail, processTag ctxRowsML 0
        = .ok (some true, j, ["<PP_R size=\"601\"", "columns=\"4\">"]
            ++ ((trimRows ctxRowsML (ctxRowsML.mesh / 4) 2).1 ++ tail))
      ∧ (trimRows ctxRowsML (ctxRowsML.mesh / 4) 2).1.length = ctxRowsML.mesh / 4 :=
  trim_rowcount_law ctxRowsML 0 2 "PP_R" ["<PP_R size=\"601\"", "columns=\"4\">"] 9 4
    (by decide) (by decide) (by decide) (by decide) (by decide) (by decide)

/-! ### Claim C4 -/

/-- C4 counterexample: the run does fail at the offending tag, but the
uncaught `TypeError` carries Python's generic operand message, which names
neither the tag (`PP_LOCAL` is not a substring) nor any line position (the
message contains no digit at all) — refuting "a message identifying the
offending tag and its line position". -/
theorem missing_columns_message_cex :
    processFile ctxNoCols 9 = some (.err (.typeError divNoneMsg))
    ∧ hasSubstr "PP_LOCAL".data divNoneMsg.data = false
    ∧ divNoneMsg.data.all (fun ch => !ch.isDigit) = true :=
  ⟨by decide, by decide, by decide⟩

/-- C4 (amended): a trimmable tag — one-line or multi-line opener alike —
that records a declared size but no columns aborts the run at that tag with
the uncaught `TypeError` of `mesh // None`, whose generic message
identifies neither the tag nor its line position, and returns no output.
(The early-return case of a one-line header followed directly by another
opener is the sole exception: there the tag is skipped without any error.) -/
theorem missing_columns_typeerror (ctx : Ctx) (i i₁ : Nat) (name : String)
    (out₁ : List String) (s : Nat)
    (hname : tagName (ctx.getLine i) = some name)
    (hmem : HEADERS.contains name = true)
    (hhdr : headerPhase ctx true i = .ok (i₁, out₁, some s, none))
    (hs : s ≠ 0)
    (hnext : ¬((ctx.getLine i).data.contains '>' = true
        ∧ matchTagOpen (ctx.getLine i₁) = true)) :
    processTag ctx i = .err (.typeError divNoneMsg) := by
  have hne : ctx.getLine i ≠ "" := by
    intro he
    rw [he, tagName_empty] at hname
    exact absurd hname (by simp)
  have hpi : ¬(name = "PP_INFO") := contains_HEADERS_ne_ppinfo hmem
  unfold headerPhase at hhdr
  by_cases hgt : (ctx.getLine i).data.contains '>' = true
  · rw [if_pos hgt] at hhdr
    cases hrs : replaceSize ctx.mesh true (ctx.getLine i) none none with
    | ok t =>
        obtain ⟨em, szr, colsr⟩ := t
        rw [hrs] at hhdr
        obtain ⟨h1, h2, h3, h4⟩ :
            nextL ctx i = i₁ ∧ [em] = out₁ ∧ szr = some s ∧ colsr = none := by
          simpa using hhdr
        subst h1; subst h2; subst h3; subst h4
        have hop : matchTagOpen (ctx.getLine (nextL ctx i)) = false := by
          cases hb : matchTagOpen (ctx.getLine (nextL ctx i)) with
          | false => rfl
          | true => exact absurd ⟨hgt, hb⟩ hnext
        simp only [processTag, if_neg hne, hname, hmem, hgt, if_true, hrs,
          if_neg hpi,
          if_neg (by simp [hop] : ¬(matchTagOpen (ctx.getLine (nextL ctx i)) = true))]
        unfold afterHeader
        simp [hs, divNoneMsg]
    | err e => rw [hrs] at hhdr; exact absurd hhdr (by simp)
    | diverge => rw [hrs] at hhdr; exact absurd hhdr (by simp)
  · rw [if_neg hgt] at hhdr
    simp only [processTag, if_neg hne, hname, hmem, if_neg hgt, hhdr]
    unfold afterHeader
    simp [hs, divNoneMsg]

theorem missing_columns_typeerror_witness :
    processTag ctxNoColsML 0 = .err (.typeError divNoneMsg) :=
  missing_columns_typeerror ctxNoColsML 0 2 "PP_LOCAL" ["<PP_LOCAL", "size=\"600\">"] 600
    (by decide) (by decide) (by decide) (by decide) (by decide)

/-! ### Claim C8 -/

/-- C8: a tag whose name is not in the allow-list — one-line or multi-line
opener alike — copies every line between its header and the stopping point
verbatim and in order: any successful `process_tag` call on it returns the
emitted header lines (plus the inserted metadata block in the case of a
one-line `PP_INFO` opener, which does not disturb input lines) followed by
the exact consecutive slice of input lines starting at the post-header
cursor. -/
theorem verbatim_copy_law (ctx : Ctx) (i i₁ : Nat) (name : String)
    (out₁ : List String) (sz cols : Option Nat) (r : Option Bool)
    (j : Nat) (out : List String)
    (hname : tagName (ctx.getLine i) = some name)
    (hmem : HEADERS.contains name = false)
    (hhdr : headerPhase ctx false i = .ok (i₁, out₁, sz, cols))
    (hrun : processTag ctx i = .ok (r, j, out)) :
    r = none ∧ ∃ pre body, out = pre ++ body
      ∧ pre.length = (if name = "PP_INFO" ∧ (ctx.getLine i).data.contains '>' = true
          then out₁.length + 1 else out₁.length)
      ∧ body = (List.range' i₁ body.length).map ctx.getLine
      ∧ (j = i₁ + body.length ∨ j + 1 = i₁ + body.length) := by
  have hne : ctx.getLine i ≠ "" := by
    intro he
    rw [he, tagName_empty] at hname
    exact absurd hname (by simp)
  unfold headerPhase at hhdr
  by_cases hgt : (ctx.getLine i).data.contains '>' = true
  · rw [if_pos hgt] at hhdr
    simp only [replaceSize_notrim] at hhdr
    obtain ⟨h1, h2, h3, h4⟩ :
        nextL ctx i = i₁ ∧ [replaceSizeEmitNT ctx.mesh (ctx.getLine i)] = out₁
          ∧ (none : Option Nat) = sz ∧ (none : Option Nat) = cols := by
      simpa using hhdr
    subst h1; subst h2; subst h3; subst h4
    simp only [processTag, if_neg hne, hname, hmem, hgt, if_true,
      replaceSize_notrim] at hrun
    by_cases hop : matchTagOpen (ctx.getLine (nextL ctx i)) = true
    · rw [if_pos hop] at hrun
      obtain ⟨g1, g2, g3⟩ :
          none = r ∧ nextL ctx i = j ∧
            (if name = "PP_INFO"
              then [replaceSizeEmitNT ctx.mesh (ctx.getLine i), infoBlock ctx]
              else [replaceSizeEmitNT ctx.mesh (ctx.getLine i)]) = out := by
        simpa using hrun
      refine ⟨g1.symm, ?_⟩
      refine ⟨_, [], by rw [← g3, List.append_nil], ?_, by simp,
        Or.inl (by simp only [List.length_nil]; omega)⟩
      have hgt2 : '>' ∈ (ctx.getLine i).data := by simpa using hgt
      by_cases hn : name = "PP_INFO" <;> simp [hn, hgt2]
    · rw [if_neg hop] at hrun
      unfold afterHeader at hrun
      simp only [Bool.not_false, if_pos rfl] at hrun
      cases hnt : notTrimAux ctx (ctx.total - 1 - nextL ctx i) (nextL ctx i) with
      | ok p =>
          rw [hnt] at hrun
          obtain ⟨j', out'⟩ := p
          obtain ⟨hmap, hpne, hcur⟩ := notTrimAux_spec ctx _ _ j' out' (by rw [hnt])
          obtain ⟨g1, g2, g3⟩ :
              none = r ∧ j' = j ∧
                (if name = "PP_INFO"
                  then [replaceSizeEmitNT ctx.mesh (ctx.getLine i), infoBlock ctx]
                  else [replaceSizeEmitNT ctx.mesh (ctx.getLine i)]) ++ out' = out := by
            simpa using hrun
          refine ⟨g1.symm, ?_⟩
          refine ⟨_, out', g3.symm, ?_, hmap, ?_⟩
          · have hgt2 : '>' ∈ (ctx.getLine i).data := by simpa using hgt
            by_cases hn : name = "PP_INFO" <;> simp [hn, hgt2]
          · rcases hcur with hc | hc
            · exact Or.inl (by omega)
            · exact Or.inr (by omega)
      | err e => rw [hnt] at hrun; exact absurd hrun (by simp)
      | diverge => rw [hnt] at hrun; exact absurd hrun (by simp)
  · rw [if_neg hgt] at hhdr
    simp only [processTag, if_neg hne, hname, hmem, if_neg hgt, hhdr] at hrun
    unfold afterHeader at hrun
    simp only [Bool.not_false, if_pos rfl] at hrun
    cases hnt : notTrimAux ctx (ctx.total - 1 - i₁) i₁ with
    | ok p =>
        rw [hnt] at hrun
        obtain ⟨j', out'⟩ := p
        obtain ⟨hmap, hpne, hcur⟩ := notTrimAux_spec ctx _ _ j' out' (by rw [hnt])
        obtain ⟨g1, g2, g3⟩ : none = r ∧ j' = j ∧ out₁ ++ out' = out := by
          simpa using hrun
        refine ⟨g1.symm, ?_⟩
        refine ⟨out₁, out', g3.symm, ?_, hmap, ?_⟩
        · rw [if_neg (fun h => hgt h.2)]
        · rcases hcur with hc | hc
          · exact Or.inl (by omega)
          · exact Or.inr (by omega)
    | err e => rw [hnt] at hrun; exact absurd hrun (by simp)
    | diverge => rw [hnt] at hrun; exact absurd hrun (by simp)

theorem verbatim_copy_law_witness :
    (none : Option Bool) = none ∧ ∃ pre body,
      (["<B", "a=\"1\">", "x"] : List String) = pre ++ body
      ∧ pre.length = (if ("B" : String) = "PP_INFO"
          ∧ (ctxPlainML.getLine 0).data.contains '>' = true
          then (["<B", "a=\"1\">"] : List String).length + 1
          else (["<B", "a=\"1\">"] : List String).length)
      ∧ body = (List.range' 2 body.length).map ctxPlainML.getLine
      ∧ (3 = 2 + body.length ∨ 3 + 1 = 2 + body.length) :=
  verbatim_copy_law ctxPlainML 0 2 "B" ["<B", "a=\"1\">"] none none none 3
    ["<B", "a=\"1\">", "x"] (by decide) (by decide) (by decide) (by decide)

/-! ### Claim C9 -/

/-- C9 counterexample: this input contains the informational header tag, but
its opening marker spans two lines, so the metadata block is never appended:
the run succeeds and no output line contains the warning banner. -/
theorem pp_info_multiline_no_block_cex :
    processFile ctxInfoMulti 9
      = some (.ok ["<PP_INFO", ">", "x", "<PP_R size=\"2\" columns=\"2\">", "1 2",
          "</PP_R>", ""])
    ∧ (["<PP_INFO", ">", "x", "<PP_R size=\"2\" columns=\"2\">", "1 2",
          "</PP_R>", ""].all (fun l => !hasSubstr "NOTE!!!!".data l.data)) = true :=
  ⟨by decide, by decide⟩

/-- C9 (amended): whenever the `PP_INFO` opening marker is a one-line tag
(the line contains `>`), any successful `process_tag` call on it emits the
(possibly rewritten) opener line immediately followed by the synthesized
metadata block (warning banner, target mesh, timestamp, version). -/
theorem pp_info_block_oneline (ctx : Ctx) (i : Nat) (r : Option Bool) (j : Nat)
    (out : List String)
    (hname : tagName (ctx.getLine i) = some "PP_INFO")
    (hgt : (ctx.getLine i).data.contains '>' = true)
    (hrun : processTag ctx i = .ok (r, j, out)) :
    ∃ rest, out = replaceSizeEmitNT ctx.mesh (ctx.getLine i) :: infoBlock ctx :: rest := by
  have hne : ctx.getLine i ≠ "" := by
    intro he
    rw [he, tagName_empty] at hname
    exact absurd hname (by simp)
  simp only [processTag, if_neg hne, hname,
    (by decide : HEADERS.contains "PP_INFO" = false), hgt, if_true, replaceSize_notrim,
    if_pos rfl] at hrun
  by_cases hop : matchTagOpen (ctx.getLine (nextL ctx i)) = true
  · rw [if_pos hop] at hrun
    exact ⟨[], by
      obtain ⟨-, -, h3⟩ :
          none = r ∧ nextL ctx i = j ∧
            [replaceSizeEmitNT ctx.mesh (ctx.getLine i), infoBlock ctx] = out := by
        simpa using hrun
      rw [← h3]⟩
  · rw [if_neg hop] at hrun
    unfold afterHeader at hrun
    simp only [Bool.not_false, if_pos rfl] at hrun
    cases hnt : notTrimAux ctx (ctx.total - 1 - nextL ctx i) (nextL ctx i) with
    | ok p =>
        rw [hnt] at hrun
        exact ⟨p.2, by
          obtain ⟨-, -, h3⟩ :
              none = r ∧ p.1 = j ∧
                [replaceSizeEmitNT ctx.mesh (ctx.getLine i), infoBlock ctx] ++ p.2 = out := by
            simpa using hrun
          rw [← h3]; rfl⟩
    | err e => rw [hnt] at hrun; exact absurd hrun (by simp)
    | diverge => rw [hnt] at hrun; exact absurd hrun (by simp)

theorem pp_info_block_oneline_witness :
    ∃ rest, ["<PP_INFO>", infoBlock ctxInfoOne, "hello"]
      = replaceSizeEmitNT ctxInfoOne.mesh (ctxInfoOne.getLine 0)
          :: infoBlock ctxInfoOne :: rest :=
  pp_info_block_oneline ctxInfoOne 0 none 2 ["<PP_INFO>", infoBlock ctxInfoOne, "hello"]
    (by decide) (by decide) (by decide)

end UpfTrim
